import Mathlib

/-
Verification of the planar-sweep core of the `geo` repository.

The development shallowly embeds the code of
`src/geo/src/algorithm/sweep/{error.rs, active.rs, proc.rs}`:

* `Error` mirrors the single-variant error enum of `error.rs`.
* `Active` and the active-set operations mirror `active.rs`.  The Rust
  container is a `BTreeSet<Active<T>>`; it is embedded as the sorted list of
  its elements, and the `PartialOrd` comparison of the inner type is an
  explicit function argument `pc : T → T → Option Ordering`.
* The sweep engine of `proc.rs` is embedded as `handleEvent` / `nextEvent` /
  `peekPoint` over an explicit `SweepState`.  The segment-storage operations
  used by `proc.rs` (`IMSegment::is_correct`, `geom`, `adjust_one_segment`,
  `intersect_line_ordered`, `chain_overlap`, `overlapping`,
  `set_left_event_done`) are implemented outside the files of this
  repository's sweep module; following the design notes of the spec they are
  embedded as an arena of segment records (`SegData`) plus abstract
  operations bundled in `SweepOps`, so every theorem below holds for all
  implementations of those operations.
-/

namespace GeoSweep

/-- Mirrors `Error` from `src/geo/src/algorithm/sweep/error.rs`: a single
`Unhandled` variant carrying a static message. -/
inductive Error where
  | Unhandled (msg : String)
deriving DecidableEq, Repr

/-- Mirrors the ordering wrapper `Active<T>` from
`src/geo/src/algorithm/sweep/active.rs` (a transparent wrapper around `T`). -/
structure Active (T : Type) where
  val : T
deriving DecidableEq, Repr

/-- Mirrors `Active::new` (active.rs lines 27-35).  The function `pc` stands
for the `PartialOrd::partial_cmp` of the inner type; the constructor checks
that `t.partial_cmp(&t)` is `Some(_)` and otherwise fails with
`Error::Unhandled("Not a number")`. -/
def Active.new {T : Type} (pc : T → T → Option Ordering) (t : T) :
    Except Error (Active T) :=
  match pc t t with
  | some _ => Except.ok ⟨t⟩
  | none => Except.error (Error.Unhandled "Not a number")

/-- Mirrors `Active::active_ref` (active.rs lines 37-45): the same
self-comparison check; on success the Rust code transmutes the reference,
which is value-wise the same wrapped value. -/
def Active.activeRef {T : Type} (pc : T → T → Option Ordering) (t : T) :
    Except Error (Active T) :=
  match pc t t with
  | some _ => Except.ok ⟨t⟩
  | none => Except.error (Error.Unhandled "Not a number")

/-- Decidable test for success of one of the fallible operations. -/
def okB {α : Type} : Except Error α → Bool
  | Except.ok _ => true
  | Except.error _ => false

/-- The comparison outcome `Some(Less)` of the wrapped `PartialOrd`. -/
def pcLt {T : Type} (pc : T → T → Option Ordering) (x y : T) : Bool :=
  decide (pc x y = some Ordering.lt)

/-- The comparison outcome `Some(Greater)` of the wrapped `PartialOrd`. -/
def pcGt {T : Type} (pc : T → T → Option Ordering) (x y : T) : Bool :=
  decide (pc x y = some Ordering.gt)

/-- The comparison outcome `Some(Equal)` of the wrapped `PartialOrd`. -/
def pcEq {T : Type} (pc : T → T → Option Ordering) (x y : T) : Bool :=
  decide (pc x y = some Ordering.eq)

/-- Mirrors `ActiveSet::previous` for `BTreeSet<Active<T>>` (active.rs lines
90-97): after the `Active::active_ref(segment)?` self-comparison check, the
result is the last element of the range below `Bound::Excluded(segment)`,
i.e. the greatest stored element comparing `Less` than the query.  The
`BTreeSet` is embedded as the sorted list of its elements. -/
def setPrevious {T : Type} (pc : T → T → Option Ordering) (s : List T)
    (q : T) : Except Error (Option T) :=
  match pc q q with
  | none => Except.error (Error.Unhandled "Not a number")
  | some _ => Except.ok ((s.filter (fun x => pcLt pc x q)).getLast?)

/-- Mirrors `ActiveSet::next` for `BTreeSet<Active<T>>` (active.rs lines
99-106): the first element of the range above `Bound::Excluded(segment)`,
i.e. the least stored element comparing `Greater` than the query. -/
def setNext {T : Type} (pc : T → T → Option Ordering) (s : List T)
    (q : T) : Except Error (Option T) :=
  match pc q q with
  | none => Except.error (Error.Unhandled "Not a number")
  | some _ => Except.ok ((s.filter (fun x => pcGt pc x q)).head?)

/-- Insertion into the sorted element list of the `BTreeSet`: the new value
goes after every element comparing `Less` than it. -/
def insertSorted {T : Type} (pc : T → T → Option Ordering) (x : T) :
    List T → List T
  | [] => [x]
  | y :: ys => if pcLt pc y x then y :: insertSorted pc x ys else x :: y :: ys

/-- Mirrors `ActiveSet::insert_active` (active.rs lines 108-114):
`Active::new(segment)?` checks self-comparability, then `BTreeSet::insert`
returns `false` (leaving the set unchanged) exactly when an element comparing
`Equal` is already present, which the Rust code turns into
`Error::Unhandled("error from insert")`.  The pair returns the resulting set
alongside the `Result`, reflecting the in-place mutation. -/
def insertActive {T : Type} (pc : T → T → Option Ordering) (s : List T)
    (x : T) : Except Error Unit × List T :=
  match pc x x with
  | none => (Except.error (Error.Unhandled "Not a number"), s)
  | some _ =>
    if s.any (fun y => pcEq pc y x) then
      (Except.error (Error.Unhandled "error from insert"), s)
    else
      (Except.ok (), insertSorted pc x s)

/-- Mirrors `ActiveSet::remove_active` (active.rs lines 116-122):
`Active::active_ref(segment)?` checks self-comparability, then
`BTreeSet::remove` removes the element comparing `Equal` and returns whether
one was present; absence becomes `Error::Unhandled("error from remove")` with
the set left unchanged. -/
def removeActive {T : Type} (pc : T → T → Option Ordering) (s : List T)
    (x : T) : Except Error Unit × List T :=
  match pc x x with
  | none => (Except.error (Error.Unhandled "Not a number"), s)
  | some _ =>
    if s.any (fun y => pcEq pc y x) then
      (Except.ok (), s.eraseP (fun y => pcEq pc y x))
    else
      (Except.error (Error.Unhandled "error from remove"), s)

/-- A sweep point: a 2D coordinate (proc.rs `SweepPoint<C::Scalar>`).  The
claims under study only compare points for equality, so the scalar is
embedded as `Int`. -/
abbrev Pt : Type := Int × Int

/-- Mirrors the event kinds `EventType` used by proc.rs. -/
inductive EventType where
  | LineLeft
  | LineRight
  | PointLeft
  | PointRight
deriving DecidableEq, Repr

/-- Mirrors `Event<C::Scalar, IMSegment<C>>`: a sweep point, a kind and the
segment payload.  Segments are arena indices (`Nat`), following the spec's
design note that chain links be stored as indices into an arena. -/
structure Event where
  point : Pt
  ty : EventType
  payload : Nat
deriving DecidableEq, Repr

/-- Mirrors `LineOrPoint`, the geometry of a segment: a left and a right
sweep point.  Only `left` is inspected by proc.rs itself. -/
structure LineOrPoint where
  left : Pt
  right : Pt
deriving DecidableEq, Repr, Inhabited

/-- Modelled from the spec: one record of the segment arena (spec 3,
"Segment" / "Overlap chain", and design note "arena of segment records
referenced by index, with chain links stored as indices").  It carries the
fields proc.rs reads or writes through `IMSegment`: the geometry, the
"enter-callback already fired" flag and the overlap-chain link. -/
structure SegData where
  geom : LineOrPoint
  leftEventDone : Bool
  overlapping : Option Nat
deriving DecidableEq, Repr, Inhabited

/-- Reads one record of the segment arena. -/
def getSeg (store : List SegData) (i : Nat) : SegData :=
  store.getD i default

/-- The geometry of segment `i` (Rust `segment.geom()`). -/
def geomOf (store : List SegData) (i : Nat) : LineOrPoint :=
  (getSeg store i).geom

/-- Mirrors `set_left_event_done` on a segment: marks the enter-callback of
record `i` as fired. -/
def setLeftDone (store : List SegData) (i : Nat) : List SegData :=
  store.set i { getSeg store i with leftEventDone := true }

/-- One push into the `BinaryHeap` of events, embedded as the list of queued
events sorted so that the head is the next element `pop` returns (the
maximum under the heap's comparison `ecmp`). -/
def heapPush (ecmp : Event → Event → Ordering) (e : Event) :
    List Event → List Event
  | [] => [e]
  | x :: xs =>
    if ecmp e x = Ordering.gt then e :: x :: xs else x :: heapPush ecmp e xs

/-- Pushes a batch of events in order. -/
def pushAll (ecmp : Event → Event → Ordering) (es : List Event)
    (q : List Event) : List Event :=
  es.foldl (fun acc e => heapPush ecmp e acc) q

/-- Modelled from the spec: the operations of proc.rs whose implementations
(`IMSegment`, `LineOrPoint` intersection, overlap chaining, staleness
marking) live outside the sweep module's source files.  They are abstract
parameters, so the theorems below hold for every implementation.

* `pc` — the `PartialOrd` comparison of two active segments (indices into
  the current arena), i.e. the geometric vertical order at the sweep line;
* `ecmp` — the total order of the event priority queue;
* `isCorrect` — `IMSegment::is_correct`: whether a popped event still
  reflects the current state of its segment (not superseded by a split);
* `intersect` — `LineOrPoint::intersect_line_ordered`;
* `adjust` — `IMSegment::adjust_one_segment`: splits a segment at an
  intersection, returning the updated arena, the newly queued events and
  the overlapping piece, if any;
* `chainOverlap` — `IMSegment::chain_overlap`: links two coincident pieces
  into one overlap chain. -/
structure SweepOps where
  pc : List SegData → Nat → Nat → Option Ordering
  ecmp : Event → Event → Ordering
  isCorrect : List SegData → Event → Bool
  intersect : LineOrPoint → LineOrPoint → Option LineOrPoint
  adjust : List SegData → Nat → LineOrPoint → List SegData × List Event × Option Nat
  chainOverlap : List SegData → Nat → Nat → List SegData

/-- The state owned by `Sweep` (proc.rs lines 8-11): the event queue and the
active set, plus the segment arena holding the shared segment records. -/
structure SweepState where
  events : List Event
  active : List Nat
  store : List SegData
deriving DecidableEq, Repr

/-- A callback invocation `cb(&segment, event_type)`. -/
abbrev CB : Type := Nat × EventType

/-- The chain walk performed by the `while let Some(seg) = cb_seg` loops of
proc.rs: the visited segment followed by the members reached through
`overlapping()` links.  `fuel` bounds the walk (the Rust loop would diverge
on a cyclic chain; chains are finite sets of distinct segments, spec 3). -/
def chainFrom (store : List SegData) : Nat → Nat → List Nat
  | 0, i => [i]
  | fuel + 1, i =>
    i :: (match (getSeg store i).overlapping with
          | none => []
          | some j => chainFrom store fuel j)

/-- The exit-callback loop of the `LineRight` arm (proc.rs lines 157-161):
one `LineRight` callback per chain member starting from the removed
segment. -/
def lineRightCbs (store : List SegData) (fuel : Nat) (i : Nat) : List CB :=
  (chainFrom store fuel i).map (fun j => (j, EventType.LineRight))

/-- The enter-callback loop of the `LineLeft` arm (proc.rs lines 145-150):
for each chain member, fire the `LineLeft` callback, mark its enter-event
done, and follow the `overlapping()` link. -/
def lineLeftCbLoop (fuel : Nat) (store : List SegData) (i : Nat) :
    List SegData × List CB :=
  match fuel with
  | 0 => (store, [])
  | fuel + 1 =>
    let store1 := setLeftDone store i
    match (getSeg store1 i).overlapping with
    | none => (store1, [(i, EventType.LineLeft)])
    | some j =>
      let r := lineLeftCbLoop fuel store1 j
      (r.1, (i, EventType.LineLeft) :: r.2)

/-- One `PointLeft` neighbor check (proc.rs lines 182-193): if the point
segment intersects the neighbor, split the neighbor, queueing any new
events. -/
def pointLeftStep (ops : SweepOps) (segment : Nat) (st : SweepState)
    (adj : Nat) : SweepState :=
  match ops.intersect (geomOf st.store segment) (geomOf st.store adj) with
  | some int =>
    let r := ops.adjust st.store adj int
    { st with store := r.1, events := pushAll ops.ecmp r.2.1 st.events }
  | none => st

/-- Outcome of the `for adj_segment in prev...chain(next)` loop of the
`LineLeft` arm: either the whole event was deferred (`return Ok(true)` at
proc.rs line 132), or the loop finished with the final value of
`should_add`. -/
inductive LoopOut where
  | deferred (s : SweepState)
  | done (s : SweepState) (shouldAdd : Bool)
deriving DecidableEq, Repr

/-- The neighbor loop of the `LineLeft` arm (proc.rs lines 81-136).  The
recursive "handle the pending right-end event now" step (lines 94-105) pops
the top of the event queue and re-enters event handling; the re-entry is the
explicit argument `recurse`, so that the loop itself is structurally
recursive over the (at most two-element) neighbor list.  Callbacks fired
inside the recursive step are returned alongside the outcome. -/
def lineLeftLoop (ops : SweepOps)
    (recurse : Event → SweepState → List CB × Except Error (Bool × SweepState))
    (segment : Nat) :
    List Nat → SweepState → List CB × Except Error LoopOut
  | [], s => ([], Except.ok (LoopOut.done s true))
  | adj :: rest, s =>
    match ops.intersect (geomOf s.store segment) (geomOf s.store adj) with
    | none => lineLeftLoop ops recurse segment rest s
    | some int =>
      -- 1. Split adj_segment, pushing extra events (line 87-88).
      let a := ops.adjust s.store adj int
      let s1 : SweepState :=
        { s with store := a.1, events := pushAll ops.ecmp a.2.1 s.events }
      -- Special case check (lines 94-100), reading the geometry after the
      -- split.
      let recOut : List CB × Except Error SweepState :=
        if int.left ≠ (getSeg s1.store adj).geom.left ∧
            int.left = (getSeg s1.store segment).geom.left then
          match s1.events with
          | [] =>
            -- `self.events.pop().unwrap()` on an empty queue aborts.
            ([], Except.error (Error.Unhandled "event queue empty at right-end fixup"))
          | e :: restEvs =>
            let r := recurse e { s1 with events := restEvs }
            (r.1, r.2.map (fun x => x.2))
        else ([], Except.ok s1)
      match recOut with
      | (cbsR, Except.error er) => (cbsR, Except.error er)
      | (cbsR, Except.ok s2) =>
        -- 2. Split the incoming segment the same way (lines 108-109).
        let b := ops.adjust s2.store segment int
        let s3 : SweepState :=
          { s2 with store := b.1, events := pushAll ops.ecmp b.2.1 s2.events }
        match a.2.2, b.2.2 with
        | some adjOvl, some tgt =>
          -- Merge the coincident remainders into one chain (line 119).
          let s4 : SweepState :=
            { s3 with store := ops.chainOverlap s3.store adjOvl tgt }
          if tgt = segment then
            if (getSeg s4.store adjOvl).leftEventDone then
              (cbsR, Except.ok (LoopOut.done s4 false))
            else
              (cbsR, Except.ok (LoopOut.deferred s4))
          else
            let r := lineLeftLoop ops recurse segment rest s4
            (cbsR ++ r.1, r.2)
        | none, none =>
          let r := lineLeftLoop ops recurse segment rest s3
          (cbsR ++ r.1, r.2)
        | _, _ =>
          -- `assert_eq!(adj_overlap.is_some(), seg_overlap_key.is_some())`
          -- (lines 111-115) aborts on mismatch.
          (cbsR, Except.error (Error.Unhandled "one of the intersecting segments had an overlap, but not the other"))

/-- The body of `Sweep::handle_event` (proc.rs lines 55-205), with the
recursive re-entry abstracted as `recurse`.  Returns the callbacks fired (a
callback already made survives a later error, like the Rust `FnMut`) and
either the `Ok(bool)` result together with the final state, or the
propagated error. -/
def handleEventCore (ops : SweepOps)
    (recurse : Event → SweepState → List CB × Except Error (Bool × SweepState))
    (ev : Event) (s : SweepState) :
    List CB × Except Error (Bool × SweepState) :=
  if ops.isCorrect s.store ev then
    let segment := ev.payload
    match setPrevious (ops.pc s.store) s.active segment with
    | Except.error e => ([], Except.error e)
    | Except.ok prev =>
      match setNext (ops.pc s.store) s.active segment with
      | Except.error e => ([], Except.error e)
      | Except.ok next =>
        match ev.ty with
        | EventType.LineLeft =>
          match lineLeftLoop ops recurse segment (prev.toList ++ next.toList) s with
          | (cbs1, Except.error e) => (cbs1, Except.error e)
          | (cbs1, Except.ok (LoopOut.deferred s1)) =>
            (cbs1, Except.ok (true, s1))
          | (cbs1, Except.ok (LoopOut.done s1 shouldAdd)) =>
            match (if shouldAdd then insertActive (ops.pc s1.store) s1.active segment
                   else (Except.ok (), s1.active)) with
            | (Except.error e, _) => (cbs1, Except.error e)
            | (Except.ok _, act') =>
              let r := lineLeftCbLoop (s1.store.length + 1) s1.store segment
              (cbs1 ++ r.2, Except.ok (true, { s1 with active := act', store := r.1 }))
        | EventType.LineRight =>
          match removeActive (ops.pc s.store) s.active segment with
          | (Except.error e, _) => ([], Except.error e)
          | (Except.ok _, act') =>
            let cbs := lineRightCbs s.store (s.store.length + 1) segment
            match prev, next with
            | some p, some n =>
              match ops.intersect (geomOf s.store p) (geomOf s.store n) with
              | some int =>
                let r1 := ops.adjust s.store p int
                let r2 := ops.adjust r1.1 n int
                (cbs, Except.ok (true,
                  { events := pushAll ops.ecmp (r1.2.1 ++ r2.2.1) s.events,
                    active := act', store := r2.1 }))
              | none => (cbs, Except.ok (true, { s with active := act' }))
            | _, _ => (cbs, Except.ok (true, { s with active := act' }))
        | EventType.PointLeft =>
          ([(segment, EventType.PointLeft)],
           Except.ok (true, (prev.toList ++ next.toList).foldl (pointLeftStep ops segment) s))
        | EventType.PointRight => ([], Except.ok (true, s))
  else
    -- Stale event (proc.rs lines 64-66): no callback, state untouched.
    ([], Except.ok (false, s))

/-- `Sweep::handle_event` with an explicit recursion budget for the
"handle the pending right-end event now" step; at budget `0` that step
aborts instead of recursing (the budget is a modelling device; the claims
below quantify over it or show it is not consumed). -/
def handleEvent (ops : SweepOps) :
    Nat → Event → SweepState → List CB × Except Error (Bool × SweepState)
  | 0, ev, s =>
    handleEventCore ops
      (fun _ _ => ([], Except.error (Error.Unhandled "recursion budget exhausted")))
      ev s
  | fuel + 1, ev, s => handleEventCore ops (handleEvent ops fuel) ev s

/-- Mirrors `Sweep::next_event` (proc.rs lines 39-53): pop the next event,
remember its point, handle it (propagating errors), and return the point;
return `none` on an exhausted queue. -/
def nextEvent (ops : SweepOps) (fuel : Nat) (s : SweepState) :
    List CB × Except Error (Option Pt × SweepState) :=
  match s.events with
  | [] => ([], Except.ok (none, s))
  | e :: rest =>
    let r := handleEvent ops fuel e { s with events := rest }
    (r.1, r.2.map (fun x => (some e.point, x.2)))

/-- Mirrors `Sweep::peek_point` (proc.rs lines 216-219): the point of the
event at the top of the queue, through an immutable borrow. -/
def peekPoint (s : SweepState) : Option Pt :=
  s.events.head?.map (fun e => e.point)

/-! ## Theorems -/

/-- C1: for every value `t` of a partially-ordered type, `Active::new` and
`Active::active_ref` succeed exactly when `t.partial_cmp(&t)` is `Some`
(the check the code performs), and otherwise fail with the ordering error
`Unhandled("Not a number")`; whenever self-comparison is consistent (equal
or incomparable, as for every lawful `PartialOrd` such as floating-point
geometry), success is exactly "`t` compares equal to itself". -/
theorem active_new_checks_self_comparison {T : Type}
    (pc : T → T → Option Ordering) (t : T) :
    (okB (Active.new pc t) = (pc t t).isSome) ∧
    (okB (Active.activeRef pc t) = (pc t t).isSome) ∧
    ((pc t t).isSome = false →
      Active.new pc t = Except.error (Error.Unhandled "Not a number") ∧
      Active.activeRef pc t = Except.error (Error.Unhandled "Not a number")) ∧
    ((pc t t = some Ordering.eq ∨ pc t t = none) →
      (okB (Active.new pc t) = true ↔ pc t t = some Ordering.eq)) := by
  cases h : pc t t with
  | none => simp [Active.new, Active.activeRef, okB, h]
  | some v =>
    refine ⟨by simp [Active.new, okB, h], by simp [Active.activeRef, okB, h],
      by simp [h], ?_⟩
    rintro (hv | hv)
    · injection hv with h2
      subst h2
      simp [Active.new, okB, h]
    · simp at hv

/-- A partial comparison on `Int` with a poisoned value `9` standing in for
NaN, used to exercise the fallible constructors on concrete inputs. -/
def pcDemo : Int → Int → Option Ordering :=
  fun a b => if a = 9 ∨ b = 9 then none else some (compare a b)

theorem active_new_checks_self_comparison_witness :
    ((pcDemo 9 9).isSome = false ∧
      Active.new pcDemo 9 = Except.error (Error.Unhandled "Not a number") ∧
      Active.activeRef pcDemo 9 = Except.error (Error.Unhandled "Not a number")) ∧
    ((pcDemo 1 1 = some Ordering.eq ∨ pcDemo 1 1 = none) ∧
      (okB (Active.new pcDemo 1) = true ↔ pcDemo 1 1 = some Ordering.eq)) :=
  ⟨⟨by decide, (active_new_checks_self_comparison pcDemo 9).2.2.1 (by decide)⟩,
   ⟨by decide, (active_new_checks_self_comparison pcDemo 1).2.2.2 (by decide)⟩⟩

/-- Membership in the sorted-insertion result: exactly the old elements plus
the new one. -/
theorem mem_insertSorted {T : Type} (pc : T → T → Option Ordering) (x y : T) :
    ∀ s : List T, y ∈ insertSorted pc x s ↔ y ∈ s ∨ y = x := by
  intro s
  induction s with
  | nil => simp [insertSorted]
  | cons a as ih =>
    by_cases h : pcLt pc a x = true
    · simp only [insertSorted, h, if_true, List.mem_cons, ih]
      tauto
    · simp only [insertSorted, h, if_false, Bool.false_eq_true, List.mem_cons]
      tauto

/-- C3: for every self-comparable segment `x`, `insert_active(x)` succeeds
and adds `x` as a new entry (the result holds exactly the old entries plus
`x`) when no existing entry compares equal to `x`, and fails with
`Unhandled("error from insert")` leaving the set unchanged when some entry
already compares equal. -/
theorem insert_active_adds_or_rejects_duplicate {T : Type}
    (pc : T → T → Option Ordering) (s : List T) (x : T)
    (hx : (pc x x).isSome = true) :
    (s.any (fun y => pcEq pc y x) = false →
      insertActive pc s x = (Except.ok (), insertSorted pc x s) ∧
      (∀ y, y ∈ insertSorted pc x s ↔ y ∈ s ∨ y = x)) ∧
    (s.any (fun y => pcEq pc y x) = true →
      insertActive pc s x = (Except.error (Error.Unhandled "error from insert"), s)) := by
  obtain ⟨v, hv⟩ := Option.isSome_iff_exists.mp hx
  constructor
  · intro h
    exact ⟨by simp [insertActive, hv, h], fun y => mem_insertSorted pc x y s⟩
  · intro h
    simp [insertActive, hv, h]

theorem insert_active_adds_or_rejects_duplicate_witness :
    ((pcDemo 4 4).isSome = true ∧
      ([1, 6].any (fun y => pcEq pcDemo y 4) = false →
        insertActive pcDemo [1, 6] 4 = (Except.ok (), insertSorted pcDemo 4 [1, 6]) ∧
        (∀ y, y ∈ insertSorted pcDemo 4 [1, 6] ↔ y ∈ [1, 6] ∨ y = 4))) ∧
    ((pcDemo 6 6).isSome = true ∧
      ([1, 6].any (fun y => pcEq pcDemo y 6) = true →
        insertActive pcDemo [1, 6] 6 =
          (Except.error (Error.Unhandled "error from insert"), [1, 6]))) :=
  ⟨⟨by decide, (insert_active_adds_or_rejects_duplicate pcDemo [1, 6] 4 (by decide)).1⟩,
   ⟨by decide, (insert_active_adds_or_rejects_duplicate pcDemo [1, 6] 6 (by decide)).2⟩⟩

/-- C4: for every self-comparable segment `x`, `remove_active(x)` succeeds
exactly when an entry comparing equal to `x` is present, deleting the first
such entry and keeping everything else; when no entry compares equal it
fails with `Unhandled("error from remove")` and the set is unchanged. -/
theorem remove_active_deletes_or_rejects_missing {T : Type}
    (pc : T → T → Option Ordering) (s : List T) (x : T)
    (hx : (pc x x).isSome = true) :
    (s.any (fun y => pcEq pc y x) = true →
      removeActive pc s x = (Except.ok (), s.eraseP (fun y => pcEq pc y x)) ∧
      ∃ a l₁ l₂, pcEq pc a x = true ∧ (∀ b ∈ l₁, ¬pcEq pc b x = true) ∧
        s = l₁ ++ a :: l₂ ∧ s.eraseP (fun y => pcEq pc y x) = l₁ ++ l₂) ∧
    (s.any (fun y => pcEq pc y x) = false →
      removeActive pc s x = (Except.error (Error.Unhandled "error from remove"), s)) := by
  obtain ⟨v, hv⟩ := Option.isSome_iff_exists.mp hx
  constructor
  · intro h
    obtain ⟨a, ha, hpa⟩ := List.any_eq_true.mp h
    obtain ⟨a', l₁, l₂, hl₁, hpa', hs, he⟩ :=
      List.exists_of_eraseP (p := fun y => pcEq pc y x) ha hpa
    exact ⟨by simp [removeActive, hv, h], a', l₁, l₂, hpa', hl₁, hs, he⟩
  · intro h
    simp [removeActive, hv, h]

theorem remove_active_deletes_or_rejects_missing_witness :
    ((pcDemo 6 6).isSome = true ∧
      ([1, 6].any (fun y => pcEq pcDemo y 6) = true →
        removeActive pcDemo [1, 6] 6 =
          (Except.ok (), ([1, 6] : List Int).eraseP (fun y => pcEq pcDemo y 6)) ∧
        ∃ a l₁ l₂, pcEq pcDemo a 6 = true ∧ (∀ b ∈ l₁, ¬pcEq pcDemo b 6 = true) ∧
          ([1, 6] : List Int) = l₁ ++ a :: l₂ ∧
          ([1, 6] : List Int).eraseP (fun y => pcEq pcDemo y 6) = l₁ ++ l₂)) ∧
    ((pcDemo 4 4).isSome = true ∧
      ([1, 6].any (fun y => pcEq pcDemo y 4) = false →
        removeActive pcDemo [1, 6] 4 =
          (Except.error (Error.Unhandled "error from remove"), [1, 6]))) :=
  ⟨⟨by decide, (remove_active_deletes_or_rejects_missing pcDemo [1, 6] 6 (by decide)).1⟩,
   ⟨by decide, (remove_active_deletes_or_rejects_missing pcDemo [1, 6] 4 (by decide)).2⟩⟩

/-- In a `Pairwise R` list, every element is the last one or related to it. -/
theorem pairwise_rel_getLast {α : Type} {R : α → α → Prop} :
    ∀ (l : List α) (p : α), l.getLast? = some p → l.Pairwise R →
      ∀ x ∈ l, x = p ∨ R x p := by
  intro l
  induction l with
  | nil => intro p hp; cases hp
  | cons a as ih =>
    intro p hp hpw x hx
    cases as with
    | nil =>
      simp at hp
      subst hp
      simp at hx
      exact Or.inl hx
    | cons b bs =>
      rw [List.getLast?_cons_cons] at hp
      rcases List.mem_cons.mp hx with rfl | hx'
      · exact Or.inr ((List.pairwise_cons.mp hpw).1 p
          (List.mem_of_mem_getLast? hp))
      · exact ih p hp (List.pairwise_cons.mp hpw).2 x hx'

/-- In a `Pairwise R` list, every element is the head or related from it. -/
theorem pairwise_rel_head {α : Type} {R : α → α → Prop} (l : List α) (p : α)
    (hp : l.head? = some p) (hpw : l.Pairwise R) :
    ∀ x ∈ l, x = p ∨ R p x := by
  cases l with
  | nil => cases hp
  | cons a as =>
    injection hp with hp
    subst hp
    intro x hx
    rcases List.mem_cons.mp hx with rfl | hx'
    · exact Or.inl rfl
    · exact Or.inr ((List.pairwise_cons.mp hpw).1 x hx')

/-- C2: for every active set (a `BTreeSet`, embedded as its element list
sorted by the wrapped comparison) and every self-comparable query `q`,
whether or not `q` is a member, `previous(q)` returns the greatest entry
comparing strictly below `q`, or none if no entry is below `q`, and
`next(q)` returns the least entry comparing strictly above `q`, or none if
no entry is above `q`. -/
theorem previous_next_are_strict_neighbors {T : Type}
    (pc : T → T → Option Ordering) (s : List T) (q : T)
    (hq : (pc q q).isSome = true)
    (hsorted : s.Pairwise (fun a b => pcLt pc a b = true)) :
    (∃ r, setPrevious pc s q = Except.ok r ∧
      ((r = none ∧ ∀ x ∈ s, pcLt pc x q = false) ∨
       (∃ p, r = some p ∧ p ∈ s ∧ pcLt pc p q = true ∧
         ∀ x ∈ s, pcLt pc x q = true → x = p ∨ pcLt pc x p = true))) ∧
    (∃ r, setNext pc s q = Except.ok r ∧
      ((r = none ∧ ∀ x ∈ s, pcGt pc x q = false) ∨
       (∃ p, r = some p ∧ p ∈ s ∧ pcGt pc p q = true ∧
         ∀ x ∈ s, pcGt pc x q = true → x = p ∨ pcLt pc p x = true))) := by
  obtain ⟨v, hv⟩ := Option.isSome_iff_exists.mp hq
  constructor
  · refine ⟨(s.filter (fun x => pcLt pc x q)).getLast?, by simp [setPrevious, hv], ?_⟩
    cases hLast : (s.filter (fun x => pcLt pc x q)).getLast? with
    | none =>
      refine Or.inl ⟨rfl, fun x hx => ?_⟩
      have hnil : s.filter (fun x => pcLt pc x q) = [] := by
        cases hfil : s.filter (fun x => pcLt pc x q) with
        | nil => rfl
        | cons a as => rw [hfil] at hLast; simp [List.getLast?] at hLast
      have := List.filter_eq_nil_iff.mp hnil x hx
      exact Bool.not_eq_true _ ▸ (by simpa using this)
    | some p =>
      have hpmem := List.mem_of_mem_getLast? hLast
      have hpfil := List.mem_filter.mp hpmem
      refine Or.inr ⟨p, rfl, hpfil.1, hpfil.2, fun x hx hlt => ?_⟩
      have hxfil : x ∈ s.filter (fun x => pcLt pc x q) :=
        List.mem_filter.mpr ⟨hx, hlt⟩
      exact pairwise_rel_getLast _ p hLast (hsorted.filter _) x hxfil
  · refine ⟨(s.filter (fun x => pcGt pc x q)).head?, by simp [setNext, hv], ?_⟩
    cases hHead : (s.filter (fun x => pcGt pc x q)).head? with
    | none =>
      refine Or.inl ⟨rfl, fun x hx => ?_⟩
      have hnil : s.filter (fun x => pcGt pc x q) = [] := by
        cases hfil : s.filter (fun x => pcGt pc x q) with
        | nil => rfl
        | cons a as => rw [hfil] at hHead; cases hHead
      have := List.filter_eq_nil_iff.mp hnil x hx
      exact Bool.not_eq_true _ ▸ (by simpa using this)
    | some p =>
      have hpmem : p ∈ s.filter (fun x => pcGt pc x q) :=
        List.mem_of_mem_head? hHead
      have hpfil := List.mem_filter.mp hpmem
      refine Or.inr ⟨p, rfl, hpfil.1, hpfil.2, fun x hx hgt => ?_⟩
      have hxfil : x ∈ s.filter (fun x => pcGt pc x q) :=
        List.mem_filter.mpr ⟨hx, hgt⟩
      exact pairwise_rel_head _ p hHead (hsorted.filter _) x hxfil

theorem previous_next_are_strict_neighbors_witness :
    ((pcDemo 4 4).isSome = true ∧
      ([1, 3, 6] : List Int).Pairwise (fun a b => pcLt pcDemo a b = true)) ∧
    ((∃ r, setPrevious pcDemo [1, 3, 6] 4 = Except.ok r ∧
      ((r = none ∧ ∀ x ∈ ([1, 3, 6] : List Int), pcLt pcDemo x 4 = false) ∨
       (∃ p, r = some p ∧ p ∈ ([1, 3, 6] : List Int) ∧ pcLt pcDemo p 4 = true ∧
         ∀ x ∈ ([1, 3, 6] : List Int), pcLt pcDemo x 4 = true → x = p ∨ pcLt pcDemo x p = true))) ∧
    (∃ r, setNext pcDemo [1, 3, 6] 4 = Except.ok r ∧
      ((r = none ∧ ∀ x ∈ ([1, 3, 6] : List Int), pcGt pcDemo x 4 = false) ∨
       (∃ p, r = some p ∧ p ∈ ([1, 3, 6] : List Int) ∧ pcGt pcDemo p 4 = true ∧
         ∀ x ∈ ([1, 3, 6] : List Int), pcGt pcDemo x 4 = true → x = p ∨ pcLt pcDemo p x = true)))) :=
  ⟨⟨by decide, by decide⟩,
   previous_next_are_strict_neighbors pcDemo [1, 3, 6] 4 (by decide) (by decide)⟩

/-- C5: for every popped event whose segment is stale (the
`IMSegment::is_correct` check fails), `next_event` returns the event's sweep
point, invokes the callback zero times, pushes no new events, and leaves the
active set (and the whole segment store) unchanged. -/
theorem stale_event_is_noop (ops : SweepOps) (fuel : Nat) (s : SweepState)
    (e : Event) (rest : List Event)
    (h1 : s.events = e :: rest)
    (h2 : ops.isCorrect s.store e = false) :
    nextEvent ops fuel s =
      ([], Except.ok (some e.point, { s with events := rest })) := by
  cases s with
  | mk evs act st =>
    simp only [SweepState.events] at h1
    subst h1
    cases fuel <;>
      simp [nextEvent, handleEvent, handleEventCore, h2, Except.map]

/-- Concrete sweep operations used to drive the engine on explicit inputs:
indices are totally ordered, events with payload `99` are stale, and no two
geometries intersect. -/
def demoOps : SweepOps where
  pc := fun _ a b => some (compare a b)
  ecmp := fun _ _ => Ordering.eq
  isCorrect := fun _ e => decide (e.payload ≠ 99)
  intersect := fun _ _ => none
  adjust := fun st _ _ => (st, [], none)
  chainOverlap := fun st _ _ => st

def evStale : Event := ⟨(0, 0), EventType.LineLeft, 99⟩

def sDemo5 : SweepState := ⟨[evStale], [7], []⟩

theorem stale_event_is_noop_witness :
    sDemo5.events = evStale :: [] ∧
    demoOps.isCorrect sDemo5.store evStale = false ∧
    nextEvent demoOps 3 sDemo5 =
      ([], Except.ok (some evStale.point, { sDemo5 with events := [] })) :=
  ⟨rfl, by decide, stale_event_is_noop demoOps 3 sDemo5 evStale [] rfl (by decide)⟩

/-- The body of `handle_event` reads its recursive re-entry only in the
`LineLeft` arm, so for any other event its value does not depend on it. -/
theorem handleEventCore_recurse_irrelevant (ops : SweepOps)
    (r₁ r₂ : Event → SweepState → List CB × Except Error (Bool × SweepState))
    (ev : Event) (s : SweepState) (hty : ev.ty ≠ EventType.LineLeft) :
    handleEventCore ops r₁ ev s = handleEventCore ops r₂ ev s := by
  unfold handleEventCore
  cases hc : ops.isCorrect s.store ev
  · rfl
  · simp only [if_true]
    cases setPrevious (ops.pc s.store) s.active ev.payload
    · rfl
    · cases setNext (ops.pc s.store) s.active ev.payload
      · rfl
      · cases hty' : ev.ty
        · exact absurd hty' hty
        · rfl
        · rfl
        · rfl

/-- C8: the recursive "process the pending right-end event now" step inside
`LineLeft` handling recurses at most one level per occurrence: handling the
recursively popped event — a right-end (or any non-`LineLeft`) event —
consumes none of the recursion budget, i.e. its result is the same as with a
zero budget, so it cannot trigger another such recursive pop. -/
theorem pending_right_event_recursion_is_shallow (ops : SweepOps)
    (fuel : Nat) (ev : Event) (s : SweepState)
    (hty : ev.ty ≠ EventType.LineLeft) :
    handleEvent ops fuel ev s = handleEvent ops 0 ev s := by
  cases fuel with
  | zero => rfl
  | succ n =>
    exact handleEventCore_recurse_irrelevant ops (handleEvent ops n) _ ev s hty

def evRight8 : Event := ⟨(5, 5), EventType.LineRight, 2⟩

def sDemo8 : SweepState := ⟨[], [2], [default, default, default]⟩

theorem pending_right_event_recursion_is_shallow_witness :
    evRight8.ty ≠ EventType.LineLeft ∧
    handleEvent demoOps 5 evRight8 sDemo8 = handleEvent demoOps 0 evRight8 sDemo8 :=
  ⟨by decide,
   pending_right_event_recursion_is_shallow demoOps 5 evRight8 sDemo8 (by decide)⟩

/-- C10: `peek_point` is a pure read (in the code it takes `&self`; here it
is a function of the state) that agrees with the next drive step: it returns
none exactly when the next `next_event` call consumes nothing and returns no
point, and when it returns a point `p`, any non-erroring `next_event` call
returns exactly `p` — even when the underlying event is stale. -/
theorem peek_point_agrees_with_next_event (ops : SweepOps) (fuel : Nat)
    (s : SweepState) :
    (peekPoint s = none ↔ nextEvent ops fuel s = ([], Except.ok (none, s))) ∧
    (∀ p out cbs, peekPoint s = some p →
      nextEvent ops fuel s = (cbs, Except.ok out) → out.1 = some p) := by
  cases s with
  | mk evs act st =>
    cases evs with
    | nil =>
      constructor
      · simp [peekPoint, nextEvent]
      · intro p out cbs hp
        simp [peekPoint] at hp
    | cons e rest =>
      constructor
      · constructor
        · intro hp
          simp [peekPoint] at hp
        · intro hne
          exfalso
          simp only [nextEvent] at hne
          cases hr : (handleEvent ops fuel e { events := rest, active := act, store := st }).2 with
          | error er => rw [hr] at hne; simp [Except.map] at hne
          | ok v => rw [hr] at hne; simp [Except.map] at hne
      · intro p out cbs hp hne
        simp only [peekPoint, List.head?, Option.map] at hp
        injection hp with hp
        simp only [nextEvent] at hne
        cases hr : (handleEvent ops fuel e { events := rest, active := act, store := st }).2 with
        | error er => rw [hr] at hne; simp [Except.map] at hne
        | ok v =>
          rw [hr] at hne
          simp only [Except.map] at hne
          have h2 := congrArg Prod.snd hne
          simp at h2
          rw [← h2, ← hp]

def evPR10 : Event := ⟨(2, 3), EventType.PointRight, 1⟩

def sDemo10 : SweepState := ⟨[evPR10], [], []⟩

theorem peek_point_agrees_with_next_event_witness :
    peekPoint sDemo10 = some ((2 : Int), (3 : Int)) ∧
    nextEvent demoOps 0 sDemo10 =
      ([], Except.ok (some ((2 : Int), (3 : Int)), (⟨[], [], []⟩ : SweepState))) ∧
    (((some ((2 : Int), (3 : Int)), (⟨[], [], []⟩ : SweepState)) :
        Option Pt × SweepState).1 = some ((2 : Int), (3 : Int))) :=
  ⟨rfl, rfl,
   (peek_point_agrees_with_next_event demoOps 0 sDemo10).2
     ((2 : Int), (3 : Int)) (some ((2 : Int), (3 : Int)), (⟨[], [], []⟩ : SweepState)) []
     rfl rfl⟩

/-- A `PointLeft` neighbor check never touches the active set. -/
theorem pointLeftStep_active (ops : SweepOps) (segment : Nat)
    (st : SweepState) (adj : Nat) :
    (pointLeftStep ops segment st adj).active = st.active := by
  unfold pointLeftStep
  cases ops.intersect (geomOf st.store segment) (geomOf st.store adj) <;> rfl

/-- Folding `PointLeft` neighbor checks never touches the active set. -/
theorem foldl_pointLeftStep_active (ops : SweepOps) (segment : Nat) :
    ∀ (l : List Nat) (st : SweepState),
      (l.foldl (pointLeftStep ops segment) st).active = st.active := by
  intro l
  induction l with
  | nil => intro st; rfl
  | cons a as ih =>
    intro st
    rw [List.foldl_cons, ih, pointLeftStep_active]

/-- C6: for every non-stale `PointLeft` event whose segment is
self-comparable, the engine never inserts the point segment into the active
set (the active set is unchanged), and the callback is invoked exactly once
with `(segment, PointLeft)`, regardless of any neighbor intersections and
splits. -/
theorem point_left_never_inserted_single_callback (ops : SweepOps)
    (fuel : Nat) (s : SweepState) (e : Event) (rest : List Event)
    (h1 : s.events = e :: rest) (hty : e.ty = EventType.PointLeft)
    (hc : ops.isCorrect s.store e = true)
    (hcmp : (ops.pc s.store e.payload e.payload).isSome = true) :
    ∃ s', nextEvent ops fuel s =
        ([(e.payload, EventType.PointLeft)], Except.ok (some e.point, s')) ∧
      s'.active = s.active := by
  obtain ⟨v, hv⟩ := Option.isSome_iff_exists.mp hcmp
  cases s with
  | mk evs act st =>
    simp only [SweepState.events] at h1
    subst h1
    simp only [SweepState.store, SweepState.active] at hv hc ⊢
    cases fuel <;>
    · simp only [nextEvent, handleEvent, handleEventCore, hc, if_true,
        setPrevious, setNext, hv, hty, Except.map]
      exact ⟨_, rfl, foldl_pointLeftStep_active ops e.payload _ _⟩

def evPt6 : Event := ⟨(1, 1), EventType.PointLeft, 3⟩

def sDemo6 : SweepState := ⟨[evPt6], [1, 5], []⟩

theorem point_left_never_inserted_single_callback_witness :
    (sDemo6.events = evPt6 :: [] ∧ evPt6.ty = EventType.PointLeft ∧
      demoOps.isCorrect sDemo6.store evPt6 = true ∧
      (demoOps.pc sDemo6.store evPt6.payload evPt6.payload).isSome = true) ∧
    ∃ s', nextEvent demoOps 2 sDemo6 =
        ([(evPt6.payload, EventType.PointLeft)], Except.ok (some evPt6.point, s')) ∧
      s'.active = sDemo6.active :=
  ⟨⟨rfl, rfl, by decide, by decide⟩,
   point_left_never_inserted_single_callback demoOps 2 sDemo6 evPt6 [] rfl rfl
     (by decide) (by decide)⟩

/-- C7: for every non-stale `LineRight` event whose segment is
self-comparable, when an entry comparing equal is present the engine removes
it and fires the exit callback once for the segment and once for every
member of its overlap chain; when the removal fails because the segment is
absent, the error propagates out of `next_event` and no callback at all is
invoked. -/
theorem line_right_removes_then_fires_chain (ops : SweepOps) (fuel : Nat)
    (s : SweepState) (e : Event) (rest : List Event)
    (h1 : s.events = e :: rest) (hty : e.ty = EventType.LineRight)
    (hc : ops.isCorrect s.store e = true)
    (hcmp : (ops.pc s.store e.payload e.payload).isSome = true) :
    (s.active.any (fun y => pcEq (ops.pc s.store) y e.payload) = true →
      ∃ s', nextEvent ops fuel s =
          ((chainFrom s.store (s.store.length + 1) e.payload).map
             (fun j => (j, EventType.LineRight)),
           Except.ok (some e.point, s')) ∧
        s'.active = s.active.eraseP (fun y => pcEq (ops.pc s.store) y e.payload)) ∧
    (s.active.any (fun y => pcEq (ops.pc s.store) y e.payload) = false →
      nextEvent ops fuel s =
        ([], Except.error (Error.Unhandled "error from remove"))) := by
  obtain ⟨v, hv⟩ := Option.isSome_iff_exists.mp hcmp
  cases s with
  | mk evs act st =>
    simp only [SweepState.events] at h1
    subst h1
    simp only [SweepState.store, SweepState.active] at hv hc ⊢
    constructor
    · intro hmem
      cases fuel <;>
      · simp only [nextEvent, handleEvent, handleEventCore, hc, if_true,
          setPrevious, setNext, hv, hty, Except.map, removeActive, hmem,
          lineRightCbs]
        rcases hprev : (act.filter (fun x => pcLt (ops.pc st) x e.payload)).getLast? with _ | p <;>
          rcases hnext : (act.filter (fun x => pcGt (ops.pc st) x e.payload)).head? with _ | n <;>
            simp only <;>
            first
              | exact ⟨_, rfl, rfl⟩
              | (rcases hint : ops.intersect (geomOf st p) (geomOf st n) with _ | int <;>
                  simp only <;> exact ⟨_, rfl, rfl⟩)
    · intro hmem
      cases fuel <;>
        simp [nextEvent, handleEvent, handleEventCore, hc, setPrevious,
          setNext, hv, hty, Except.map, removeActive, hmem]

def evRt7 : Event := ⟨(4, 4), EventType.LineRight, 5⟩

def sDemo7 : SweepState := ⟨[evRt7], [5], []⟩

def sDemo7b : SweepState := ⟨[evRt7], [], []⟩

theorem line_right_removes_then_fires_chain_witness :
    ((sDemo7.active.any (fun y => pcEq (demoOps.pc sDemo7.store) y evRt7.payload) = true) ∧
      ∃ s', nextEvent demoOps 1 sDemo7 =
          ((chainFrom sDemo7.store (sDemo7.store.length + 1) evRt7.payload).map
             (fun j => (j, EventType.LineRight)),
           Except.ok (some evRt7.point, s')) ∧
        s'.active = sDemo7.active.eraseP
          (fun y => pcEq (demoOps.pc sDemo7.store) y evRt7.payload)) ∧
    ((sDemo7b.active.any (fun y => pcEq (demoOps.pc sDemo7b.store) y evRt7.payload) = false) ∧
      nextEvent demoOps 1 sDemo7b =
        ([], Except.error (Error.Unhandled "error from remove"))) :=
  ⟨⟨by decide,
    (line_right_removes_then_fires_chain demoOps 1 sDemo7 evRt7 [] rfl rfl
      (by decide) (by decide)).1 (by decide)⟩,
   ⟨by decide,
    (line_right_removes_then_fires_chain demoOps 1 sDemo7b evRt7 [] rfl rfl
      (by decide) (by decide)).2 (by decide)⟩⟩

/-- C9: during `LineLeft` handling, when the entire incoming segment becomes
a member of an overlap chain (the incoming segment's split returns the
segment itself as the overlapping piece): if the chain's enter callback has
already fired (`left_event_done`), the incoming segment is not inserted into
the active set (the active set is unchanged) and processing continues with
the enter-callback loop; otherwise processing of this `LineLeft` event stops
entirely — no insertion and no callback.  The scenario has one active
neighbor `a` below the incoming segment and no recursive right-end fixup
(the overlap starts at the neighbor's own left endpoint). -/
theorem line_left_full_overlap_suppresses_or_defers (ops : SweepOps)
    (fuel : Nat) (s : SweepState) (e : Event) (rest : List Event) (a : Nat)
    (int : LineOrPoint) (st1 : List SegData) (evs1 : List Event) (aOvl : Nat)
    (st2 : List SegData) (evs2 : List Event)
    (h1 : s.events = e :: rest) (hty : e.ty = EventType.LineLeft)
    (hc : ops.isCorrect s.store e = true)
    (hprev : setPrevious (ops.pc s.store) s.active e.payload = Except.ok (some a))
    (hnext : setNext (ops.pc s.store) s.active e.payload = Except.ok none)
    (hint : ops.intersect (geomOf s.store e.payload) (geomOf s.store a) = some int)
    (hadj : ops.adjust s.store a int = (st1, evs1, some aOvl))
    (hnorec : int.left = (getSeg st1 a).geom.left)
    (hseg : ops.adjust st1 e.payload int = (st2, evs2, some e.payload)) :
    ((getSeg (ops.chainOverlap st2 aOvl e.payload) aOvl).leftEventDone = true →
      ∃ s', nextEvent ops fuel s =
          ((lineLeftCbLoop ((ops.chainOverlap st2 aOvl e.payload).length + 1)
              (ops.chainOverlap st2 aOvl e.payload) e.payload).2,
           Except.ok (some e.point, s')) ∧
        s'.active = s.active) ∧
    ((getSeg (ops.chainOverlap st2 aOvl e.payload) aOvl).leftEventDone = false →
      ∃ s', nextEvent ops fuel s = ([], Except.ok (some e.point, s')) ∧
        s'.active = s.active) := by
  cases s with
  | mk evs act st =>
    simp only [SweepState.events] at h1
    subst h1
    simp only [SweepState.store, SweepState.active] at hc hprev hnext hint hadj hseg ⊢
    constructor <;>
    · intro hdone
      cases fuel <;>
      · simp only [nextEvent, handleEvent, handleEventCore, hc, if_true, hty,
          hprev, hnext, Option.toList, List.nil_append, List.singleton_append,
          lineLeftLoop, hint, hadj, hnorec, hseg, ne_eq, not_true_eq_false,
          false_and, if_false, hdone, Except.map]
        exact ⟨_, rfl, rfl⟩

/-- A concrete coincident-overlap geometry for exercising the chaining
path. -/
def ovDemo : LineOrPoint := ⟨(0, 0), (2, 2)⟩

/-- Concrete sweep operations whose every intersection is the coincident
overlap `ovDemo` and whose splits return the adjusted segment itself as the
overlapping piece. -/
def demoOps9 : SweepOps where
  pc := fun _ a b => some (compare a b)
  ecmp := fun _ _ => Ordering.eq
  isCorrect := fun _ _ => true
  intersect := fun _ _ => some ovDemo
  adjust := fun st i _ => (st, [], some i)
  chainOverlap := fun st _ _ => st

def segRec (done : Bool) : SegData := ⟨⟨(0, 0), (2, 2)⟩, done, none⟩

def store9t : List SegData := [default, segRec true, segRec false]

def store9f : List SegData := [default, segRec false, segRec false]

def e9 : Event := ⟨(0, 0), EventType.LineLeft, 2⟩

def s9t : SweepState := ⟨[e9], [1], store9t⟩

def s9f : SweepState := ⟨[e9], [1], store9f⟩

theorem line_left_full_overlap_suppresses_or_defers_witness :
    ((getSeg (demoOps9.chainOverlap store9t 1 2) 1).leftEventDone = true ∧
      ∃ s', nextEvent demoOps9 0 s9t =
          ((lineLeftCbLoop ((demoOps9.chainOverlap store9t 1 2).length + 1)
              (demoOps9.chainOverlap store9t 1 2) 2).2,
           Except.ok (some e9.point, s')) ∧
        s'.active = s9t.active) ∧
    ((getSeg (demoOps9.chainOverlap store9f 1 2) 1).leftEventDone = false ∧
      ∃ s', nextEvent demoOps9 0 s9f = ([], Except.ok (some e9.point, s')) ∧
        s'.active = s9f.active) :=
  ⟨⟨by decide,
    (line_left_full_overlap_suppresses_or_defers demoOps9 0 s9t e9 [] 1 ovDemo
        store9t [] 1 store9t [] rfl rfl rfl rfl rfl rfl rfl rfl rfl).1 (by decide)⟩,
   ⟨by decide,
    (line_left_full_overlap_suppresses_or_defers demoOps9 0 s9f e9 [] 1 ovDemo
        store9f [] 1 store9f [] rfl rfl rfl rfl rfl rfl rfl rfl rfl).2 (by decide)⟩⟩

end GeoSweep
